import Mathlib

/-
Verification of the header-detection, descriptive-naming and profile-matching
core of the excel-data-merge repository (src/file_processor.py and
src/profile_manager.py), shallowly embedded in Lean 4.

Cell values are modelled by the inductive `Cell` (missing / text / integer
number).  Python string operations used by the source (`str.strip`,
`str.split`, `str.replace`, `str.startswith`, `str.isdigit`, slicing, `len`)
are embedded as executable functions over the character list of a `String`,
mirroring Python's semantics on the ASCII fragment the repository handles.
-/

/-- Python `str.strip` whitespace test (ASCII whitespace characters). -/
def pyIsSpace (c : Char) : Bool :=
  c = ' ' || c = '\t' || c = '\n' || c = '\r' || c = '\x0b' || c = '\x0c'

/-- Python `str.strip()`: remove leading and trailing whitespace. -/
def pyStrip (s : String) : String :=
  ⟨((s.data.dropWhile pyIsSpace).reverse.dropWhile pyIsSpace).reverse⟩

/-- Python `len(s)`: number of characters. -/
def pyLen (s : String) : Nat :=
  s.data.length

/-- Decimal digit character for a value below ten. -/
def digitChar (d : Nat) : Char :=
  if d = 0 then '0' else if d = 1 then '1' else if d = 2 then '2'
  else if d = 3 then '3' else if d = 4 then '4' else if d = 5 then '5'
  else if d = 6 then '6' else if d = 7 then '7' else if d = 8 then '8' else '9'

/-- Numeric value of a decimal digit character. -/
def digitVal (c : Char) : Nat :=
  if c = '0' then 0 else if c = '1' then 1 else if c = '2' then 2
  else if c = '3' then 3 else if c = '4' then 4 else if c = '5' then 5
  else if c = '6' then 6 else if c = '7' then 7 else if c = '8' then 8 else 9

/-- Decimal digits of a natural number (fuel-driven recursion). -/
def natDigitsAux : Nat → Nat → List Char
  | 0, _ => []
  | fuel + 1, n =>
    if n < 10 then [digitChar n]
    else natDigitsAux fuel (n / 10) ++ [digitChar (n % 10)]

/-- Decimal digits of a natural number. -/
def natDigits (n : Nat) : List Char :=
  natDigitsAux (n + 1) n

/-- Python `str(n)` for a non-negative integer. -/
def natToString (n : Nat) : String :=
  ⟨natDigits n⟩

/-- Python `str(i)` for an integer. -/
def intToString (i : Int) : String :=
  if i < 0 then "-" ++ natToString i.natAbs else natToString i.natAbs

/-- Value of a decimal digit string, most significant digit first. -/
def digitsToNat (l : List Char) : Nat :=
  l.foldl (fun acc c => 10 * acc + digitVal c) 0

theorem digitVal_digitChar {d : Nat} (h : d < 10) : digitVal (digitChar d) = d := by
  interval_cases d <;> rfl

theorem digitsToNat_append_digit (l : List Char) (c : Char) :
    digitsToNat (l ++ [c]) = 10 * digitsToNat l + digitVal c := by
  simp [digitsToNat, List.foldl_append]

theorem digitsToNat_natDigitsAux {fuel n : Nat} (h : n < fuel) :
    digitsToNat (natDigitsAux fuel n) = n := by
  induction fuel generalizing n with
  | zero => omega
  | succ fuel ih =>
    by_cases h10 : n < 10
    · simp [natDigitsAux, h10, digitsToNat, digitVal_digitChar h10]
    · have hdiv : n / 10 < n := Nat.div_lt_self (by omega) (by omega)
      have hmod : n % 10 < 10 := Nat.mod_lt _ (by omega)
      have hfuel : n / 10 < fuel := by omega
      simp only [natDigitsAux, h10, if_false]
      rw [digitsToNat_append_digit, ih hfuel, digitVal_digitChar hmod]
      omega

theorem natDigits_injective : Function.Injective natDigits := by
  intro a b h
  have ha : digitsToNat (natDigits a) = a := digitsToNat_natDigitsAux (Nat.lt_succ_self a)
  have hb : digitsToNat (natDigits b) = b := digitsToNat_natDigitsAux (Nat.lt_succ_self b)
  rw [← ha, ← hb, h]

theorem string_data_append (s t : String) : (s ++ t).data = s.data ++ t.data := by
  cases s
  cases t
  rfl

theorem natToString_injective : Function.Injective natToString := by
  intro a b h
  exact natDigits_injective (congrArg String.data h)

/-- A spreadsheet cell: either missing (pandas `NaN`), a text value, or a
numeric value. -/
inductive Cell where
  | missing
  | text (s : String)
  | num (n : Int)
deriving DecidableEq

/-- `pd.isna` on a cell. -/
def Cell.isMissing : Cell → Bool
  | Cell.missing => true
  | _ => false

/-- Python `str(value)` on a non-missing cell. -/
def cellStr : Cell → String
  | Cell.missing => "nan"
  | Cell.text s => s
  | Cell.num n => intToString n

/-- A raw sheet grid as read with `header=None`: a list of rows plus the
column count of the frame (`len(raw_df.columns)`). -/
structure RawGrid where
  rows : List (List Cell)
  ncols : Nat

/-- Rectangularity: every row has exactly `ncols` cells (pandas pads short
rows with `NaN` when reading, so frames are always rectangular). -/
def RawGrid.Rect (g : RawGrid) : Prop :=
  ∀ r ∈ g.rows, r.length = g.ncols

/-- A table with column names attached, as produced by header detection. -/
structure NamedTable where
  colNames : List String
  rows : List (List Cell)
deriving DecidableEq

/-- `len(raw_df.iloc[i].dropna())`: count of non-missing cells in a row. -/
def nonMissingCount (r : List Cell) : Nat :=
  (r.filter (fun c => !c.isMissing)).length

/-- The header-candidate test from `read_excel_files`:
`len(row_values) > 0 and len(row_values) >= len(raw_df.columns) / 2`
(the division is exact rational comparison, hence `2 * count ≥ ncols`). -/
def rowQualifies (ncols : Nat) (r : List Cell) : Bool :=
  decide (0 < nonMissingCount r) && decide (ncols ≤ 2 * nonMissingCount r)

/-- The value of the Python variable `header_row` after the scan loop in
`read_excel_files`: the first qualifying row index among the first
`min(10, row_count)` rows, and `0` if none qualifies. -/
def headerRowIdx (g : RawGrid) : Nat :=
  (((List.range (min 10 g.rows.length)).find?
      (fun i => rowQualifies g.ncols (g.rows.getD i []))).getD 0)

/-- The synthetic column name `f"Column_{i}"`. -/
def pyColumnName (i : Nat) : String :=
  "Column_" ++ natToString i

/-- Header cleanup: `f"Column_{i}" if pd.isna(h) else str(h).strip()` for each
header cell, `i` counting from `start`. -/
def cleanHeaders : List Cell → Nat → List String
  | [], _ => []
  | c :: rest, i =>
    (if c.isMissing then pyColumnName i else pyStrip (cellStr c)) :: cleanHeaders rest (i + 1)

/-- Header detection from `read_excel_files`: when the detected `header_row`
is positive, names come from that row and the row is excised from the data
(`data_rows = list(range(0, header_row)) + list(range(header_row+1, len))`);
otherwise synthetic names are used and all rows are kept. -/
def detect_header (g : RawGrid) : NamedTable :=
  let hr := headerRowIdx g
  if 0 < hr then
    { colNames := cleanHeaders (g.rows.getD hr []) 0
      rows := g.rows.take hr ++ g.rows.drop (hr + 1) }
  else
    { colNames := (List.range g.ncols).map pyColumnName
      rows := g.rows }

theorem pyColumnName_injective : Function.Injective pyColumnName := by
  intro a b h
  have h2 : ("Column_" ++ natToString a).data = ("Column_" ++ natToString b).data :=
    congrArg String.data h
  rw [string_data_append, string_data_append] at h2
  exact natToString_injective (congrArg String.mk (List.append_cancel_left h2))

/-- `find?` returns the first element satisfying the predicate. -/
theorem find?_eq_some_of_first {α : Type} (l : List α) (p : α → Bool) (i : Nat) (a : α)
    (hget : l[i]? = some a) (hp : p a = true)
    (hfirst : ∀ j b, j < i → l[j]? = some b → p b = false) :
    l.find? p = some a := by
  induction l generalizing i with
  | nil => simp at hget
  | cons x xs ih =>
    cases i with
    | zero =>
      rw [List.getElem?_cons_zero] at hget
      cases hget
      simp [List.find?, hp]
    | succ i =>
      have hx : p x = false := hfirst 0 x (Nat.succ_pos i) List.getElem?_cons_zero
      rw [List.getElem?_cons_succ] at hget
      simp [List.find?, hx]
      exact ih i hget (fun j b hj hg => hfirst (j + 1) b (by omega) (by simpa using hg))

theorem headerRowIdx_eq_of_first (g : RawGrid) (i : Nat)
    (hi : i < min 10 g.rows.length)
    (hq : rowQualifies g.ncols (g.rows.getD i []) = true)
    (hfirst : ∀ j, j < i → rowQualifies g.ncols (g.rows.getD j []) = false) :
    headerRowIdx g = i := by
  have hfind : (List.range (min 10 g.rows.length)).find?
      (fun j => rowQualifies g.ncols (g.rows.getD j [])) = some i := by
    apply find?_eq_some_of_first _ _ i
    · exact List.getElem?_range hi
    · exact hq
    · intro j b hj hg
      have hjlt : j < min 10 g.rows.length := by omega
      rw [List.getElem?_range hjlt] at hg
      cases hg
      exact hfirst j hj
  rw [headerRowIdx, hfind]
  rfl

theorem headerRowIdx_eq_zero_of_none (g : RawGrid)
    (hnone : ∀ j, j < min 10 g.rows.length → rowQualifies g.ncols (g.rows.getD j []) = false) :
    headerRowIdx g = 0 := by
  have hfind : (List.range (min 10 g.rows.length)).find?
      (fun j => rowQualifies g.ncols (g.rows.getD j [])) = none := by
    rw [List.find?_eq_none]
    intro j hj
    rw [List.mem_range] at hj
    simp only [Bool.not_eq_true]
    exact hnone j hj
  rw [headerRowIdx, hfind]
  rfl

theorem cleanHeaders_get (cells : List Cell) (start j : Nat) :
    (cleanHeaders cells start)[j]? =
      (cells[j]?).map
        (fun c => if c.isMissing then pyColumnName (start + j) else pyStrip (cellStr c)) := by
  induction cells generalizing start j with
  | nil => simp [cleanHeaders]
  | cons c rest ih =>
    cases j with
    | zero => simp [cleanHeaders]
    | succ j =>
      simp only [cleanHeaders, List.getElem?_cons_succ]
      rw [ih]
      have he : start + 1 + j = start + (j + 1) := by omega
      rw [he]

/-- C1 (amended).  If some row among the first `min(10, row_count)` rows
qualifies as a header (positive non-missing count, at least half the columns
populated) and the FIRST such row has index `i ≥ 1`, then `detect_header`
selects row `i`: column names come from row `i`, the data rows are all rows
of `g` except row `i` with relative order preserved, and the row count is
`row_count - 1`.  If the first qualifying row is row 0, the synthetic-name
fallback is taken instead and all rows are kept. -/
theorem detect_header_first_qualifying_row (g : RawGrid) (i : Nat)
    (hi : i < min 10 g.rows.length)
    (hq : rowQualifies g.ncols (g.rows.getD i []) = true)
    (hfirst : ∀ j, j < i → rowQualifies g.ncols (g.rows.getD j []) = false) :
    (0 < i →
      (detect_header g).colNames = cleanHeaders (g.rows.getD i []) 0 ∧
      (detect_header g).rows = g.rows.take i ++ g.rows.drop (i + 1) ∧
      (detect_header g).rows.length = g.rows.length - 1) ∧
    (i = 0 →
      (detect_header g).colNames = (List.range g.ncols).map pyColumnName ∧
      (detect_header g).rows = g.rows) := by
  have hidx := headerRowIdx_eq_of_first g i hi hq hfirst
  have hlen : i < g.rows.length := by
    have := Nat.min_le_right 10 g.rows.length
    omega
  constructor
  · intro hpos
    have hdh : detect_header g =
        { colNames := cleanHeaders (g.rows.getD i []) 0
          rows := g.rows.take i ++ g.rows.drop (i + 1) } := by
      simp only [detect_header, hidx]
      rw [if_pos hpos]
    refine ⟨by rw [hdh], by rw [hdh], ?_⟩
    rw [hdh]
    simp only [List.length_append, List.length_take, List.length_drop]
    omega
  · intro h0
    subst h0
    have hdh : detect_header g =
        { colNames := (List.range g.ncols).map pyColumnName
          rows := g.rows } := by
      simp only [detect_header, hidx]
      rfl
    exact ⟨by rw [hdh], by rw [hdh]⟩

/-- Example grid for C1's witness: the first qualifying row is row 1. -/
def gC1 : RawGrid :=
  ⟨[[Cell.missing, Cell.missing], [Cell.text "H1", Cell.text "H2"],
    [Cell.num 1, Cell.num 2]], 2⟩

theorem detect_header_first_qualifying_row_witness :
    (1 < min 10 gC1.rows.length ∧
      rowQualifies gC1.ncols (gC1.rows.getD 1 []) = true ∧
      (∀ j, j < 1 → rowQualifies gC1.ncols (gC1.rows.getD j []) = false)) ∧
    ((0 < 1 →
      (detect_header gC1).colNames = cleanHeaders (gC1.rows.getD 1 []) 0 ∧
      (detect_header gC1).rows = gC1.rows.take 1 ++ gC1.rows.drop 2 ∧
      (detect_header gC1).rows.length = gC1.rows.length - 1) ∧
    (1 = 0 →
      (detect_header gC1).colNames = (List.range gC1.ncols).map pyColumnName ∧
      (detect_header gC1).rows = gC1.rows)) :=
  ⟨⟨by decide, by decide, by decide⟩,
    detect_header_first_qualifying_row gC1 1 (by decide) (by decide) (by decide)⟩

/-- C1 counterexample: on a 2-row grid whose FIRST qualifying row is row 0,
`detect_header` does not excise any row (the result has 2 data rows, not 1)
and does not take the column names from row 0, contrary to the claim. -/
theorem detect_header_row_zero_counterexample :
    (detect_header ⟨[[Cell.text "A", Cell.text "B"],
        [Cell.num 1, Cell.num 2]], 2⟩).rows.length ≠ 2 - 1 ∧
    (detect_header ⟨[[Cell.text "A", Cell.text "B"],
        [Cell.num 1, Cell.num 2]], 2⟩).colNames ≠ ["A", "B"] := by
  constructor
  · decide
  · decide

/-- C2.  When no row among the first `min(10, row_count)` rows qualifies as a
header (including the degenerate zero-row grid), `detect_header` returns the
synthetic names `Column_0 … Column_{ncols-1}` and keeps every row of the grid
unchanged and in order. -/
theorem detect_header_no_header_row (g : RawGrid)
    (hnone : ∀ j, j < min 10 g.rows.length →
      rowQualifies g.ncols (g.rows.getD j []) = false) :
    (detect_header g).colNames = (List.range g.ncols).map pyColumnName ∧
    (detect_header g).rows = g.rows := by
  have hidx := headerRowIdx_eq_zero_of_none g hnone
  have hdh : detect_header g =
      { colNames := (List.range g.ncols).map pyColumnName
        rows := g.rows } := by
    simp only [detect_header, hidx]
    rfl
  exact ⟨by rw [hdh], by rw [hdh]⟩

/-- Example grid for C2's witness: one row, only 1 of 3 cells populated. -/
def gC2 : RawGrid :=
  ⟨[[Cell.missing, Cell.missing, Cell.text "x"]], 3⟩

theorem detect_header_no_header_row_witness :
    (∀ j, j < min 10 gC2.rows.length →
      rowQualifies gC2.ncols (gC2.rows.getD j []) = false) ∧
    ((detect_header gC2).colNames = (List.range gC2.ncols).map pyColumnName ∧
      (detect_header gC2).rows = gC2.rows) :=
  ⟨by decide, detect_header_no_header_row gC2 (by decide)⟩

/-- C8 (amended).  Whenever `detect_header` takes the synthetic-name fallback
(the computed header index is 0, i.e. no qualifying row was found beyond row
0), the produced column names are pairwise distinct.  Names copied from a
real header row are not deduplicated and may repeat. -/
theorem detect_header_synthetic_names_nodup (g : RawGrid)
    (h0 : headerRowIdx g = 0) :
    (detect_header g).colNames.Nodup := by
  have hdh : detect_header g =
      { colNames := (List.range g.ncols).map pyColumnName
        rows := g.rows } := by
    simp only [detect_header, h0]
    rfl
  rw [hdh]
  exact (List.nodup_range g.ncols).map pyColumnName_injective

/-- Example grid for C8's witness: row 0 qualifies, so the fallback path is
taken. -/
def gC8 : RawGrid :=
  ⟨[[Cell.text "a", Cell.missing]], 2⟩

theorem detect_header_synthetic_names_nodup_witness :
    headerRowIdx gC8 = 0 ∧ (detect_header gC8).colNames.Nodup :=
  ⟨by decide, detect_header_synthetic_names_nodup gC8 (by decide)⟩

/-- C8 counterexample: a grid whose header row repeats the label "A" yields a
NamedTable with duplicate column names. -/
theorem detect_header_duplicate_names_counterexample :
    ¬ (detect_header ⟨[[Cell.missing, Cell.missing],
        [Cell.text "A", Cell.text "A"],
        [Cell.text "x", Cell.text "y"]], 2⟩).colNames.Nodup := by
  decide

/-- C9.  When a header row is found (first qualifying index `i ≥ 1`), the
name of column `j` is the synthetic `Column_j` exactly when the header cell
is missing, and otherwise the trimmed text of the cell; in particular a
present, whitespace-only header cell yields the empty string as the column
name. -/
theorem detect_header_whitespace_header_cell (g : RawGrid) (i j : Nat) (c : Cell)
    (hi : i < min 10 g.rows.length)
    (hq : rowQualifies g.ncols (g.rows.getD i []) = true)
    (hfirst : ∀ k, k < i → rowQualifies g.ncols (g.rows.getD k []) = false)
    (hpos : 0 < i)
    (hc : (g.rows.getD i [])[j]? = some c) :
    (detect_header g).colNames[j]? =
      some (if c.isMissing then pyColumnName j else pyStrip (cellStr c)) ∧
    (∀ s, c = Cell.text s → pyStrip s = "" →
      (detect_header g).colNames[j]? = some "") := by
  have hidx := headerRowIdx_eq_of_first g i hi hq hfirst
  have hdh : (detect_header g).colNames = cleanHeaders (g.rows.getD i []) 0 := by
    simp only [detect_header, hidx]
    rw [if_pos hpos]
  constructor
  · rw [hdh, cleanHeaders_get, hc]
    simp
  · intro s hcs hstrip
    rw [hdh, cleanHeaders_get, hc]
    subst hcs
    simp [Cell.isMissing, cellStr, hstrip]

/-- Example grid for C9's witness: the header row (index 1) has a
whitespace-only cell in column 0. -/
def gC9 : RawGrid :=
  ⟨[[Cell.missing, Cell.missing], [Cell.text "   ", Cell.text "B"],
    [Cell.text "x", Cell.text "y"]], 2⟩

theorem detect_header_whitespace_header_cell_witness :
    (1 < min 10 gC9.rows.length ∧
      rowQualifies gC9.ncols (gC9.rows.getD 1 []) = true ∧
      (∀ k, k < 1 → rowQualifies gC9.ncols (gC9.rows.getD k []) = false) ∧
      (gC9.rows.getD 1 [])[0]? = some (Cell.text "   ")) ∧
    ((detect_header gC9).colNames[0]? =
      some (if (Cell.text "   ").isMissing then pyColumnName 0
            else pyStrip (cellStr (Cell.text "   "))) ∧
    (∀ s, Cell.text "   " = Cell.text s → pyStrip s = "" →
      (detect_header gC9).colNames[0]? = some "")) :=
  ⟨⟨by decide, by decide, by decide, by decide⟩,
    detect_header_whitespace_header_cell gC9 1 0 (Cell.text "   ")
      (by decide) (by decide) (by decide) (by decide) (by decide)⟩

/-- Python `str.isdigit()` on the ASCII fragment: non-empty and all digits. -/
def pyIsDigit (s : String) : Bool :=
  !s.data.isEmpty && s.data.all Char.isDigit

/-- Does `l` start with the pattern `pat` (character lists)? -/
def listStartsWith : List Char → List Char → Bool
  | [], _ => true
  | _ :: _, [] => false
  | p :: ps, c :: cs => p = c && listStartsWith ps cs

/-- Python `s.startswith(pat)`. -/
def pyStartsWith (s pat : String) : Bool :=
  listStartsWith pat.data s.data

/-- The label cleanup of `detect_descriptive_column_names`:
`if len(desc_name) > 30: desc_name = desc_name[:27] + "..."`. -/
def pyTruncate30 (s : String) : String :=
  if 30 < pyLen s then ⟨s.data.take 27 ++ ['.', '.', '.']⟩ else s

/-- The sampling filter of `detect_descriptive_column_names`:
`pd.notna(value) and isinstance(value, str) and value.strip() and not
value.strip().isdigit()`. -/
def isDescCandidate : Cell → Bool
  | Cell.text s => !(pyStrip s).data.isEmpty && !pyIsDigit (pyStrip s)
  | _ => false

/-- `df[col].head(min(20, len(df)))`: the first `min(20, row_count)` values of
column `j`. -/
def columnSample (t : NamedTable) (j : Nat) : List Cell :=
  (t.rows.take (min 20 t.rows.length)).map (fun r => r.getD j Cell.missing)

/-- Python dict assignment `m[k] = v`: overwrite in place or append. -/
def updAssoc {β : Type} (m : List (String × β)) (k : String) (d : β) (f : β → β) :
    List (String × β) :=
  match m with
  | [] => [(k, f d)]
  | (k', v) :: rest => if k' = k then (k', f v) :: rest else (k', v) :: updAssoc rest k d f

/-- Python dict assignment with a plain value. -/
def dictInsert {β : Type} (m : List (String × β)) (k : String) (v : β) :
    List (String × β) :=
  updAssoc m k v (fun _ => v)

/-- The body of the per-column loop of `detect_descriptive_column_names`:
default the entry to the column name, then overwrite it with the first
qualifying sampled value (trimmed, truncated) when one exists. -/
def processCol (t : NamedTable) (acc : List (String × String)) (j : Nat) (col : String) :
    List (String × String) :=
  let acc1 := dictInsert acc col col
  match (columnSample t j).find? isDescCandidate with
  | some (Cell.text s) =>
    let descName := pyTruncate30 (pyStrip s)
    if ¬ pyStartsWith col "Column_" = true ∨ 0 < pyLen descName then
      dictInsert acc1 col descName
    else acc1
  | some _ => acc1
  | none => acc1

/-- `detect_descriptive_column_names` from src/file_processor.py: returns the
empty mapping on an empty frame, otherwise one entry per column. -/
def detect_descriptive_column_names (t : NamedTable) : List (String × String) :=
  if t.rows.length = 0 ∨ t.colNames.length = 0 then []
  else t.colNames.enum.foldl (fun acc p => processCol t acc p.1 p.2) []

/-- The per-column descriptive label as worded by the spec: the first sampled
value (at most the first 20 rows) that is non-missing text, non-empty after
trimming and not purely numeric, trimmed and truncated to 30 characters;
otherwise the column's existing name. -/
def descLabelSpec (colName : String) (t : NamedTable) (j : Nat) : String :=
  match (columnSample t j).find? isDescCandidate with
  | some (Cell.text s) => pyTruncate30 (pyStrip s)
  | some _ => colName
  | none => colName

theorem lookup_updAssoc_self {β : Type} (m : List (String × β)) (k : String) (d : β)
    (f : β → β) :
    List.lookup k (updAssoc m k d f) = some (f ((List.lookup k m).getD d)) := by
  induction m with
  | nil => simp [updAssoc, List.lookup]
  | cons p rest ih =>
    obtain ⟨k', v⟩ := p
    by_cases h : k' = k
    · subst h
      simp [updAssoc, List.lookup]
    · have h2 : (k == k') = false := by
        simp [beq_iff_eq]
        exact fun he => h he.symm
      simp [updAssoc, h, List.lookup, h2, ih]

theorem lookup_updAssoc_ne {β : Type} (m : List (String × β)) (k k' : String) (d : β)
    (f : β → β) (h : k' ≠ k) :
    List.lookup k' (updAssoc m k d f) = List.lookup k' m := by
  induction m with
  | nil =>
    have h0 : (k' == k) = false := by simpa [beq_iff_eq] using h
    simp [updAssoc, List.lookup, h0]
  | cons p rest ih =>
    obtain ⟨k'', v⟩ := p
    by_cases h2 : k'' = k
    · subst h2
      have h3 : (k' == k'') = false := by simpa [beq_iff_eq] using h
      simp [updAssoc, List.lookup, h3]
    · simp only [updAssoc, h2, if_false]
      by_cases h4 : k' = k''
      · subst h4
        simp [List.lookup]
      · have h5 : (k' == k'') = false := by simpa [beq_iff_eq] using h4
        simp [List.lookup, h5, ih]

theorem lookup_dictInsert_self {β : Type} (m : List (String × β)) (k : String) (v : β) :
    List.lookup k (dictInsert m k v) = some v :=
  lookup_updAssoc_self m k v (fun _ => v)

theorem lookup_dictInsert_ne {β : Type} (m : List (String × β)) (k k' : String) (v : β)
    (h : k' ≠ k) :
    List.lookup k' (dictInsert m k v) = List.lookup k' m :=
  lookup_updAssoc_ne m k k' v (fun _ => v) h

/-- Keys of an association list. -/
def keysOf {β : Type} (m : List (String × β)) : List String :=
  m.map Prod.fst

theorem keysOf_updAssoc {β : Type} (m : List (String × β)) (k : String) (d : β)
    (f : β → β) :
    keysOf (updAssoc m k d f) =
      if k ∈ keysOf m then keysOf m else keysOf m ++ [k] := by
  induction m with
  | nil => simp [updAssoc, keysOf]
  | cons p rest ih =>
    obtain ⟨k', v⟩ := p
    by_cases h : k' = k
    · subst h
      simp [updAssoc, keysOf]
    · have h2 : k ≠ k' := fun he => h he.symm
      simp only [updAssoc, h, if_false, keysOf, List.map_cons] at ih ⊢
      rw [ih]
      by_cases h3 : k ∈ List.map Prod.fst rest
      · rw [if_pos h3, if_pos (List.mem_cons_of_mem _ h3)]
      · rw [if_neg h3, if_neg (by simp [List.mem_cons, h2, h3]), List.cons_append]

theorem keysOf_dictInsert {β : Type} (m : List (String × β)) (k : String) (v : β) :
    keysOf (dictInsert m k v) = if k ∈ keysOf m then keysOf m else keysOf m ++ [k] :=
  keysOf_updAssoc m k v (fun _ => v)

theorem mem_dictInsert {β : Type} (m : List (String × β)) (k : String) (v : β)
    (p : String × β) (hp : p ∈ dictInsert m k v) : p ∈ m ∨ p = (k, v) := by
  unfold dictInsert at hp
  induction m with
  | nil =>
    simp [updAssoc] at hp
    exact Or.inr hp
  | cons q rest ih =>
    obtain ⟨k', w⟩ := q
    by_cases h : k' = k
    · subst h
      simp only [updAssoc, if_pos rfl] at hp
      rcases List.mem_cons.mp hp with h1 | h1
      · exact Or.inr h1
      · exact Or.inl (List.mem_cons_of_mem _ h1)
    · simp only [updAssoc, h, if_false] at hp
      rcases List.mem_cons.mp hp with h1 | h1
      · exact Or.inl (h1 ▸ List.mem_cons_self _ _)
      · rcases ih h1 with h2 | h2
        · exact Or.inl (List.mem_cons_of_mem _ h2)
        · exact Or.inr h2

theorem string_eq_empty_iff (l : List Char) : (⟨l⟩ : String) = "" ↔ l = [] := by
  constructor
  · intro h
    exact congrArg String.data h
  · intro h
    rw [h]

theorem pyLen_pos_of_ne_empty (s : String) (h : s ≠ "") : 0 < pyLen s := by
  cases s with
  | mk l =>
    cases l with
    | nil => exact absurd rfl h
    | cons c cs => simp [pyLen]

theorem pyLen_pyTruncate30 (s : String) :
    pyLen (pyTruncate30 s) = if 30 < pyLen s then 30 else pyLen s := by
  unfold pyTruncate30
  by_cases h : 30 < pyLen s
  · rw [if_pos h, if_pos h]
    show (s.data.take 27 ++ ['.', '.', '.']).length = 30
    rw [List.length_append, List.length_take]
    have h2 : 30 < s.data.length := h
    have h3 : (['.', '.', '.'] : List Char).length = 3 := rfl
    rw [h3]
    omega
  · rw [if_neg h, if_neg h]

theorem pyTruncate30_ne_empty (s : String) (h : s ≠ "") : pyTruncate30 s ≠ "" := by
  unfold pyTruncate30
  by_cases h30 : 30 < pyLen s
  · rw [if_pos h30]
    intro he
    have h2 : s.data.take 27 ++ ['.', '.', '.'] = [] := (string_eq_empty_iff _).mp he
    simp at h2
  · rw [if_neg h30]
    exact h

theorem pyStrip_ne_empty_of_candidate (s : String)
    (h : isDescCandidate (Cell.text s) = true) : pyStrip s ≠ "" := by
  intro he
  have h1 : (!(pyStrip s).data.isEmpty && !pyIsDigit (pyStrip s)) = true := h
  rw [he] at h1
  exact absurd h1 (by decide)

theorem descLabel_good (s : String) (h : isDescCandidate (Cell.text s) = true) :
    pyTruncate30 (pyStrip s) ≠ "" ∧ pyLen (pyTruncate30 (pyStrip s)) ≤ 30 ∧
      0 < pyLen (pyTruncate30 (pyStrip s)) := by
  have hne : pyStrip s ≠ "" := pyStrip_ne_empty_of_candidate s h
  have hne2 : pyTruncate30 (pyStrip s) ≠ "" := pyTruncate30_ne_empty _ hne
  have hlen := pyLen_pyTruncate30 (pyStrip s)
  refine ⟨hne2, ?_, pyLen_pos_of_ne_empty _ hne2⟩
  rw [hlen]
  by_cases h30 : 30 < pyLen (pyStrip s)
  · rw [if_pos h30]
  · rw [if_neg h30]
    omega

theorem candidate_is_text (c : Cell) (h : isDescCandidate c = true) :
    ∃ s, c = Cell.text s := by
  cases c with
  | missing => simp [isDescCandidate] at h
  | text s => exact ⟨s, rfl⟩
  | num n => simp [isDescCandidate] at h

theorem processCol_eq_none (t : NamedTable) (acc : List (String × String)) (j : Nat)
    (col : String) (hfind : (columnSample t j).find? isDescCandidate = none) :
    processCol t acc j col = dictInsert acc col col := by
  simp only [processCol, hfind]

theorem processCol_eq_text (t : NamedTable) (acc : List (String × String)) (j : Nat)
    (col : String) (s : String)
    (hfind : (columnSample t j).find? isDescCandidate = some (Cell.text s))
    (hcond : ¬ pyStartsWith col "Column_" = true ∨ 0 < pyLen (pyTruncate30 (pyStrip s))) :
    processCol t acc j col =
      dictInsert (dictInsert acc col col) col (pyTruncate30 (pyStrip s)) := by
  simp only [processCol, hfind]
  rw [if_pos hcond]

theorem mem_processCol (t : NamedTable) (acc : List (String × String)) (j : Nat)
    (col : String) (p : String × String) (hp : p ∈ processCol t acc j col) :
    p ∈ acc ∨ p.2 = col ∨
      ∃ s, isDescCandidate (Cell.text s) = true ∧ p.2 = pyTruncate30 (pyStrip s) := by
  cases hfind : (columnSample t j).find? isDescCandidate with
  | none =>
    rw [processCol_eq_none t acc j col hfind] at hp
    rcases mem_dictInsert _ _ _ _ hp with h1 | h1
    · exact Or.inl h1
    · exact Or.inr (Or.inl (by rw [h1]))
  | some c =>
    have hc := List.find?_some hfind
    obtain ⟨s, rfl⟩ := candidate_is_text c hc
    have hg := descLabel_good s hc
    rw [processCol_eq_text t acc j col s hfind (Or.inr hg.2.2)] at hp
    rcases mem_dictInsert _ _ _ _ hp with h1 | h1
    · rcases mem_dictInsert _ _ _ _ h1 with h2 | h2
      · exact Or.inl h2
      · exact Or.inr (Or.inl (by rw [h2]))
    · exact Or.inr (Or.inr ⟨s, hc, by rw [h1]⟩)

theorem lookup_processCol_self (t : NamedTable) (acc : List (String × String)) (j : Nat)
    (col : String) :
    List.lookup col (processCol t acc j col) = some (descLabelSpec col t j) := by
  cases hfind : (columnSample t j).find? isDescCandidate with
  | none =>
    rw [processCol_eq_none t acc j col hfind]
    simp only [descLabelSpec, hfind]
    exact lookup_dictInsert_self _ _ _
  | some c =>
    have hc := List.find?_some hfind
    obtain ⟨s, rfl⟩ := candidate_is_text c hc
    have hg := descLabel_good s hc
    rw [processCol_eq_text t acc j col s hfind (Or.inr hg.2.2)]
    simp only [descLabelSpec, hfind]
    exact lookup_dictInsert_self _ _ _

theorem lookup_processCol_ne (t : NamedTable) (acc : List (String × String)) (j' : Nat)
    (col' col : String) (h : col ≠ col') :
    List.lookup col (processCol t acc j' col') = List.lookup col acc := by
  cases hfind : (columnSample t j').find? isDescCandidate with
  | none =>
    rw [processCol_eq_none t acc j' col' hfind, lookup_dictInsert_ne _ _ _ _ h]
  | some c =>
    have hc := List.find?_some hfind
    obtain ⟨s, rfl⟩ := candidate_is_text c hc
    have hg := descLabel_good s hc
    rw [processCol_eq_text t acc j' col' s hfind (Or.inr hg.2.2),
      lookup_dictInsert_ne _ _ _ _ h, lookup_dictInsert_ne _ _ _ _ h]

theorem keysOf_processCol (t : NamedTable) (acc : List (String × String)) (j : Nat)
    (col : String) :
    keysOf (processCol t acc j col) =
      if col ∈ keysOf acc then keysOf acc else keysOf acc ++ [col] := by
  cases hfind : (columnSample t j).find? isDescCandidate with
  | none =>
    rw [processCol_eq_none t acc j col hfind, keysOf_dictInsert]
  | some c =>
    have hc := List.find?_some hfind
    obtain ⟨s, rfl⟩ := candidate_is_text c hc
    have hg := descLabel_good s hc
    rw [processCol_eq_text t acc j col s hfind (Or.inr hg.2.2), keysOf_dictInsert,
      keysOf_dictInsert]
    by_cases h : col ∈ keysOf acc
    · simp [h]
    · rw [if_neg h,
        if_pos (List.mem_append.mpr (Or.inr (List.mem_singleton_self col)))]

theorem keysOf_fold_processCol (t : NamedTable) (cs : List (Nat × String))
    (acc : List (String × String))
    (hdisj : ∀ q ∈ cs, q.2 ∉ keysOf acc)
    (hnodup : (cs.map Prod.snd).Nodup) :
    keysOf (cs.foldl (fun a q => processCol t a q.1 q.2) acc) =
      keysOf acc ++ cs.map Prod.snd := by
  induction cs generalizing acc with
  | nil => simp
  | cons q cs ih =>
    obtain ⟨j, col⟩ := q
    simp only [List.foldl_cons, List.map_cons]
    have hcol : col ∉ keysOf acc := hdisj (j, col) (List.mem_cons_self _ _)
    have hkeys : keysOf (processCol t acc j col) = keysOf acc ++ [col] := by
      rw [keysOf_processCol, if_neg hcol]
    simp only [List.map_cons, List.nodup_cons] at hnodup
    have hd2 : ∀ r ∈ cs, r.2 ∉ keysOf (processCol t acc j col) := by
      intro r hr
      rw [hkeys]
      intro hmem
      rcases List.mem_append.mp hmem with h1 | h1
      · exact hdisj r (List.mem_cons_of_mem _ hr) h1
      · have h2 : r.2 = col := by simpa using h1
        exact hnodup.1 (h2 ▸ List.mem_map_of_mem Prod.snd hr)
    rw [ih _ hd2 hnodup.2, hkeys]
    simp

theorem mem_fold_processCol (t : NamedTable) (cs : List (Nat × String))
    (acc : List (String × String)) (p : String × String)
    (hp : p ∈ cs.foldl (fun a q => processCol t a q.1 q.2) acc) :
    p ∈ acc ∨ (∃ q ∈ cs, p.2 = q.2) ∨
      ∃ s, isDescCandidate (Cell.text s) = true ∧ p.2 = pyTruncate30 (pyStrip s) := by
  induction cs generalizing acc with
  | nil => exact Or.inl hp
  | cons q cs ih =>
    simp only [List.foldl_cons] at hp
    rcases ih _ hp with h1 | h1 | h1
    · rcases mem_processCol _ _ _ _ _ h1 with h2 | h2 | h2
      · exact Or.inl h2
      · exact Or.inr (Or.inl ⟨q, List.mem_cons_self _ _, h2⟩)
      · exact Or.inr (Or.inr h2)
    · obtain ⟨r, hr, he⟩ := h1
      exact Or.inr (Or.inl ⟨r, List.mem_cons_of_mem _ hr, he⟩)
    · exact Or.inr (Or.inr h1)

theorem lookup_fold_processCol_ne (t : NamedTable) (cs : List (Nat × String))
    (acc : List (String × String)) (col : String)
    (h : ∀ q ∈ cs, q.2 ≠ col) :
    List.lookup col (cs.foldl (fun a q => processCol t a q.1 q.2) acc) =
      List.lookup col acc := by
  induction cs generalizing acc with
  | nil => rfl
  | cons q cs ih =>
    simp only [List.foldl_cons]
    rw [ih _ (fun r hr => h r (List.mem_cons_of_mem _ hr)),
      lookup_processCol_ne _ _ _ _ _ (fun he => h q (List.mem_cons_self _ _) he.symm)]

/-- C6 (amended).  On a table with at least one row, pairwise-distinct column
names, each non-empty and at most 30 characters long, the descriptive-name
map has exactly one entry per column and every label is non-empty and at most
30 characters long.  (On an empty frame the code returns the empty map, and a
label that falls back to an over-long or empty column name inherits it.) -/
theorem derive_descriptive_names_total (t : NamedTable)
    (hrows : 0 < t.rows.length)
    (hnodup : t.colNames.Nodup)
    (hnames : ∀ c ∈ t.colNames, c ≠ "" ∧ pyLen c ≤ 30) :
    (detect_descriptive_column_names t).length = t.colNames.length ∧
    ∀ p ∈ detect_descriptive_column_names t, p.2 ≠ "" ∧ pyLen p.2 ≤ 30 := by
  by_cases hcols : t.colNames.length = 0
  · have hnil : t.colNames = [] := List.length_eq_zero.mp hcols
    have hres : detect_descriptive_column_names t = [] := by
      unfold detect_descriptive_column_names
      rw [if_pos (Or.inr hcols)]
    rw [hres, hnil]
    exact ⟨rfl, by intro p hp; simp at hp⟩
  · have hcond : ¬ (t.rows.length = 0 ∨ t.colNames.length = 0) := by
      intro hc
      rcases hc with hc | hc
      · omega
      · exact hcols hc
    have hres : detect_descriptive_column_names t =
        t.colNames.enum.foldl (fun acc p => processCol t acc p.1 p.2) [] := by
      unfold detect_descriptive_column_names
      rw [if_neg hcond]
    constructor
    · have hd : ∀ q ∈ t.colNames.enum, q.2 ∉ keysOf ([] : List (String × String)) := by
        intro q hq
        simp [keysOf]
      have hn : (t.colNames.enum.map Prod.snd).Nodup := by
        rw [List.enum_map_snd]
        exact hnodup
      have hkeys := keysOf_fold_processCol t t.colNames.enum [] hd hn
      rw [hres]
      have hlenkeys : (t.colNames.enum.foldl (fun acc p => processCol t acc p.1 p.2) []).length =
          (keysOf (t.colNames.enum.foldl (fun acc p => processCol t acc p.1 p.2) [])).length := by
        simp [keysOf]
      rw [hlenkeys, hkeys]
      simp [keysOf, List.enum_map_snd]
    · intro p hp
      rw [hres] at hp
      rcases mem_fold_processCol _ _ _ _ hp with h1 | h1 | h1
      · simp at h1
      · obtain ⟨q, hq, he⟩ := h1
        have hqmem : q.2 ∈ t.colNames := by
          rw [← List.enum_map_snd t.colNames]
          exact List.mem_map_of_mem Prod.snd hq
        rw [he]
        exact hnames q.2 hqmem
      · obtain ⟨s, hs, he⟩ := h1
        have hg := descLabel_good s hs
        rw [he]
        exact ⟨hg.1, hg.2.1⟩

/-- Example table for C6's witness. -/
def tC6 : NamedTable := ⟨["Name"], [[Cell.num 5]]⟩

theorem derive_descriptive_names_total_witness :
    (0 < tC6.rows.length ∧ tC6.colNames.Nodup ∧
      (∀ c ∈ tC6.colNames, c ≠ "" ∧ pyLen c ≤ 30)) ∧
    ((detect_descriptive_column_names tC6).length = tC6.colNames.length ∧
      ∀ p ∈ detect_descriptive_column_names tC6, p.2 ≠ "" ∧ pyLen p.2 ≤ 30) :=
  ⟨⟨by decide, by decide, by decide⟩,
    derive_descriptive_names_total tC6 (by decide) (by decide) (by decide)⟩

/-- C6 counterexample: on a table with one column and zero rows the code
returns the empty mapping (pandas `df.empty` is true), so the map size is 0
while the table has 1 column. -/
theorem derive_descriptive_names_empty_frame_counterexample :
    (detect_descriptive_column_names ⟨["A"], []⟩).length ≠
      (NamedTable.mk ["A"] []).colNames.length := by
  decide

theorem enumFrom_getElem? {α : Type} (l : List α) (n j : Nat) :
    (List.enumFrom n l)[j]? = (l[j]?).map (fun a => (n + j, a)) := by
  induction l generalizing n j with
  | nil => simp
  | cons x xs ih =>
    cases j with
    | zero => simp [List.enumFrom]
    | succ j =>
      simp only [List.enumFrom, List.getElem?_cons_succ]
      rw [ih]
      have he : n + 1 + j = n + (j + 1) := by omega
      rw [he]

theorem enum_getElem? {α : Type} (l : List α) (j : Nat) :
    (List.enum l)[j]? = (l[j]?).map (fun a => (j, a)) := by
  have h := enumFrom_getElem? l 0 j
  rw [Nat.zero_add] at h
  exact h

/-- C7 (amended).  For a table with at least one row and pairwise-distinct
column names, the map entry of column `j` is exactly the label described by
the spec: the first sampled value of the first `min(20, row_count)` rows that
is non-missing text, non-empty after trimming and not purely numeric, trimmed
and (when over 30 characters) truncated to 27 characters plus `"..."`, and
the column's existing name when no sampled value qualifies. -/
theorem derive_descriptive_names_per_column (t : NamedTable) (j : Nat) (col : String)
    (hrows : 0 < t.rows.length)
    (hnodup : t.colNames.Nodup)
    (hcol : t.colNames[j]? = some col) :
    List.lookup col (detect_descriptive_column_names t) =
      some (descLabelSpec col t j) := by
  have hjlt : j < t.colNames.length := by
    by_contra hc
    rw [List.getElem?_eq_none (by omega)] at hcol
    cases hcol
  have hcond : ¬ (t.rows.length = 0 ∨ t.colNames.length = 0) := by
    intro hc
    rcases hc with hc | hc <;> omega
  have hres : detect_descriptive_column_names t =
      t.colNames.enum.foldl (fun acc p => processCol t acc p.1 p.2) [] := by
    unfold detect_descriptive_column_names
    rw [if_neg hcond]
  have henum : (t.colNames.enum)[j]? = some (j, col) := by
    rw [enum_getElem?, hcol]
    rfl
  have hmem : (j, col) ∈ t.colNames.enum := by
    have h2 := List.getElem?_eq_some.mp henum
    obtain ⟨hlt, hg⟩ := h2
    exact hg ▸ List.getElem_mem hlt
  obtain ⟨e1, e2, hsplit⟩ := List.append_of_mem hmem
  have hsnd : t.colNames = e1.map Prod.snd ++ col :: e2.map Prod.snd := by
    conv_lhs => rw [← List.enum_map_snd t.colNames]
    rw [hsplit]
    simp
  have h2 : (e1.map Prod.snd ++ col :: e2.map Prod.snd).Nodup := hsnd ▸ hnodup
  have hdisj := List.disjoint_of_nodup_append h2
  have hne1 : col ∉ e1.map Prod.snd := fun hm => hdisj hm (List.mem_cons_self _ _)
  have hne2 : col ∉ e2.map Prod.snd := by
    have h3 := h2.of_append_right
    rw [List.nodup_cons] at h3
    exact h3.1
  rw [hres, hsplit, List.foldl_append]
  simp only [List.foldl_cons]
  rw [lookup_fold_processCol_ne t e2 _ col
    (fun q hq he => hne2 (he ▸ List.mem_map_of_mem Prod.snd hq))]
  exact lookup_processCol_self t _ j col

/-- Example table for C7's witness. -/
def tC7 : NamedTable := ⟨["A"], [[Cell.text "hello"]]⟩

theorem derive_descriptive_names_per_column_witness :
    (0 < tC7.rows.length ∧ tC7.colNames.Nodup ∧ tC7.colNames[0]? = some "A") ∧
    List.lookup "A" (detect_descriptive_column_names tC7) =
      some (descLabelSpec "A" tC7 0) :=
  ⟨⟨by decide, by decide, by decide⟩,
    derive_descriptive_names_per_column tC7 0 "A" (by decide) (by decide) (by decide)⟩

/-- C7 counterexample: on a zero-row table the claim's fallback (the label is
the existing column name) does not hold — the code returns the empty map, so
the column has no label at all. -/
theorem derive_descriptive_names_zero_rows_counterexample :
    List.lookup "B" (detect_descriptive_column_names ⟨["B"], []⟩) ≠
      some (descLabelSpec "B" ⟨["B"], []⟩ 0) := by
  decide

/-- Python `str.split(sep)` main loop over character lists (fuel-driven;
`sep` is non-empty in every use by the source). -/
def splitOnAuxL (sep : List Char) : Nat → List Char → List Char → List (List Char)
  | 0, acc, _ => [acc.reverse]
  | fuel + 1, acc, l =>
    match l with
    | [] => [acc.reverse]
    | c :: rest =>
      if listStartsWith sep l then
        acc.reverse :: splitOnAuxL sep fuel [] (l.drop sep.length)
      else
        splitOnAuxL sep fuel (c :: acc) rest

/-- Python `s.split(sep)` for non-empty `sep`. -/
def pySplit (s sep : String) : List String :=
  (splitOnAuxL sep.data (s.data.length + 1) [] s.data).map String.mk

/-- Python `sep.join(parts)`. -/
def joinWith (sep : String) : List String → String
  | [] => ""
  | p :: rest => rest.foldl (fun acc q => acc ++ sep ++ q) p

/-- Python `s.replace(pat, rep)` for non-empty `pat` (equal to
`rep.join(s.split(pat))`). -/
def pyReplace (s pat rep : String) : String :=
  joinWith rep (pySplit s pat)

/-- `_pattern_matches_sheet` from src/profile_manager.py. -/
def pattern_matches_sheet (pattern fileName sheetName : String) : Bool :=
  if pyStartsWith pattern "file:" then
    let parts := pySplit pattern "|"
    if parts.length ≠ 2 then false
    else
      let filePattern := pyStrip (pyReplace (parts.getD 0 "") "file:" "")
      let sheetPattern := pyStrip (pyReplace (parts.getD 1 "") "sheet:" "")
      fileName == filePattern && sheetName == sheetPattern
  else
    sheetName == pattern

/-- C4 (amended).  A rule built as `"file:" + F + "|sheet:" + S` — provided
the components survive the parser: the rule splits on `"|"` into exactly the
two expected parts, and stripping the `"file:"`/`"sheet:"` markers (Python
`replace`, removing every occurrence) and trimming gives back `F` and `S` —
matches `(file, sheet)` iff `file = F` and `sheet = S`, case-sensitively.  A
rule that does not start with `"file:"` matches iff the sheet name equals the
whole rule, regardless of file. -/
theorem pattern_matches_exact_and_bare (F S file sheet rule : String)
    (h0 : pyStartsWith ("file:" ++ F ++ "|sheet:" ++ S) "file:" = true)
    (h1 : pySplit ("file:" ++ F ++ "|sheet:" ++ S) "|" = ["file:" ++ F, "sheet:" ++ S])
    (h2 : pyStrip (pyReplace ("file:" ++ F) "file:" "") = F)
    (h3 : pyStrip (pyReplace ("sheet:" ++ S) "sheet:" "") = S)
    (hbare : pyStartsWith rule "file:" = false) :
    (pattern_matches_sheet ("file:" ++ F ++ "|sheet:" ++ S) file sheet = true ↔
      file = F ∧ sheet = S) ∧
    (pattern_matches_sheet rule file sheet = true ↔ sheet = rule) := by
  constructor
  · simp [pattern_matches_sheet, h0, h1, h2, h3, Bool.and_eq_true, beq_iff_eq]
  · simp [pattern_matches_sheet, hbare, beq_iff_eq]

theorem pattern_matches_exact_and_bare_witness :
    (pyStartsWith ("file:" ++ "A" ++ "|sheet:" ++ "S1") "file:" = true ∧
      pySplit ("file:" ++ "A" ++ "|sheet:" ++ "S1") "|" =
        ["file:" ++ "A", "sheet:" ++ "S1"] ∧
      pyStrip (pyReplace ("file:" ++ "A") "file:" "") = "A" ∧
      pyStrip (pyReplace ("sheet:" ++ "S1") "sheet:" "") = "S1" ∧
      pyStartsWith "S1" "file:" = false) ∧
    ((pattern_matches_sheet ("file:" ++ "A" ++ "|sheet:" ++ "S1") "A" "S1" = true ↔
      "A" = "A" ∧ "S1" = "S1") ∧
    (pattern_matches_sheet "S1" "A" "S1" = true ↔ "S1" = "S1")) :=
  ⟨⟨by decide, by decide, by decide, by decide, by decide⟩,
    pattern_matches_exact_and_bare "A" "S1" "A" "S1" "S1"
      (by decide) (by decide) (by decide) (by decide) (by decide)⟩

/-- C4 counterexample: `"file:X"` is not of the form `"file:<F>|sheet:<S>"`,
so by the claim it should act as a bare rule and match any file whose sheet
is literally named `"file:X"`; the code instead takes the `"file:"` branch,
fails the two-part split and matches nothing. -/
theorem pattern_matches_bare_file_rule_counterexample :
    ¬ pattern_matches_sheet "file:X" "A" "file:X" = true := by
  decide

/-- C5 (amended).  A stored pattern string that does not start with `"file:"`
is treated as a bare sheet-name wildcard: it matches exactly the pairs whose
sheet name equals the whole string (and matching is a total function, so it
never raises).  A malformed string that starts with `"file:"` but does not
split on `"|"` into exactly two parts matches nothing. -/
theorem pattern_matches_malformed (rule file sheet : String) :
    (pyStartsWith rule "file:" = false →
      (pattern_matches_sheet rule file sheet = true ↔ sheet = rule)) ∧
    (pyStartsWith rule "file:" = true → (pySplit rule "|").length ≠ 2 →
      pattern_matches_sheet rule file sheet = false) := by
  constructor
  · intro hb
    simp [pattern_matches_sheet, hb, beq_iff_eq]
  · intro hs hl
    simp [pattern_matches_sheet, hs, hl]

theorem pattern_matches_malformed_witness :
    pattern_matches_sheet "file:a|b|c" "F1" "file:a|b|c" = false :=
  (pattern_matches_malformed "file:a|b|c" "F1" "file:a|b|c").2 (by decide) (by decide)

/-- C5 counterexample: `"file:a|b|c"` parses as neither convention, yet it is
not treated as a bare sheet-name wildcard — it fails to match a sheet named
exactly `"file:a|b|c"`, contrary to the claim. -/
theorem pattern_matches_malformed_counterexample :
    ¬ pattern_matches_sheet "file:a|b|c" "AnyFile" "file:a|b|c" = true := by
  decide

/-- `file_data`: file name → sheet name → table (dicts as insertion-ordered
association lists). -/
abbrev FileData : Type := List (String × List (String × NamedTable))

/-- The `selections` structure built by `match_to_new_files`. -/
abbrev Selections : Type := List (String × List (String × List String))

/-- `selections[file][sheet]`, when both keys are present. -/
def lookupSheet (s : Selections) (f sh : String) : Option (List String) :=
  (List.lookup f s).bind (fun m => List.lookup sh m)

/-- `selections[file][sheet]` with the empty list for an absent key. -/
def getSel (s : Selections) (f sh : String) : List String :=
  (lookupSheet s f sh).getD []

/-- The inner column loop of `match_to_new_files`: append each column that is
present in the table's columns and not yet selected. -/
def addCols (tblCols cols sel : List String) : List String :=
  cols.foldl (fun acc c => if c ∈ tblCols ∧ ¬ c ∈ acc then acc ++ [c] else acc) sel

/-- The dict updates performed on a pattern match: create the nested entries
when missing, then extend the column list. -/
def updSel (s : Selections) (f sh : String) (tblCols cols : List String) : Selections :=
  updAssoc s f [] (fun m => updAssoc m sh [] (fun sel => addCols tblCols cols sel))

/-- The sheet loop of `match_to_new_files` for one file entry. -/
def applySheets (pat : String) (cols : List String) (fn : String)
    (shts : List (String × NamedTable)) (s : Selections) : Selections :=
  shts.foldl (fun s p =>
    if pattern_matches_sheet pat fn p.1 then updSel s fn p.1 p.2.colNames cols else s) s

/-- The file loop of `match_to_new_files` for one pattern. -/
def applyPattern (pat : String) (cols : List String) (fd : FileData)
    (s : Selections) : Selections :=
  fd.foldl (fun s p => applySheets pat cols p.1 p.2 s) s

/-- `match_to_new_files` from src/profile_manager.py: apply every pattern of
the profile, in stored order, to every (file, sheet) pair of `file_data`. -/
def match_to_new_files (patterns : List (String × List String)) (fd : FileData) :
    Selections :=
  patterns.foldl (fun s p => applyPattern p.1 p.2 fd s) []

theorem addCols_nil (tc sel : List String) : addCols tc [] sel = sel := rfl

theorem addCols_cons (tc : List String) (c : String) (cs sel : List String) :
    addCols tc (c :: cs) sel =
      addCols tc cs (if c ∈ tc ∧ ¬ c ∈ sel then sel ++ [c] else sel) := rfl

theorem mem_addCols (tc cs sel : List String) (x : String) :
    x ∈ addCols tc cs sel ↔ x ∈ sel ∨ (x ∈ cs ∧ x ∈ tc) := by
  induction cs generalizing sel with
  | nil => simp [addCols_nil]
  | cons c cs ih =>
    rw [addCols_cons, ih]
    by_cases hc : c ∈ tc ∧ ¬ c ∈ sel
    · rw [if_pos hc]
      constructor
      · rintro (hx | ⟨hx1, hx2⟩)
        · rcases List.mem_append.mp hx with hx | hx
          · exact Or.inl hx
          · have hxc : x = c := by simpa using hx
            subst hxc
            exact Or.inr ⟨List.mem_cons_self _ _, hc.1⟩
        · exact Or.inr ⟨List.mem_cons_of_mem _ hx1, hx2⟩
      · rintro (hx | ⟨hx1, hx2⟩)
        · exact Or.inl (List.mem_append.mpr (Or.inl hx))
        · rcases List.mem_cons.mp hx1 with hx1 | hx1
          · subst hx1
            exact Or.inl (List.mem_append.mpr (Or.inr (List.mem_singleton_self _)))
          · exact Or.inr ⟨hx1, hx2⟩
    · rw [if_neg hc]
      push_neg at hc
      constructor
      · rintro (hx | ⟨hx1, hx2⟩)
        · exact Or.inl hx
        · exact Or.inr ⟨List.mem_cons_of_mem _ hx1, hx2⟩
      · rintro (hx | ⟨hx1, hx2⟩)
        · exact Or.inl hx
        · rcases List.mem_cons.mp hx1 with hx1 | hx1
          · subst hx1
            exact Or.inl (hc hx2)
          · exact Or.inr ⟨hx1, hx2⟩

theorem nodup_addCols (tc cs sel : List String) (h : sel.Nodup) :
    (addCols tc cs sel).Nodup := by
  induction cs generalizing sel with
  | nil => exact h
  | cons c cs ih =>
    rw [addCols_cons]
    apply ih
    by_cases hc : c ∈ tc ∧ ¬ c ∈ sel
    · rw [if_pos hc]
      refine List.Nodup.append h (List.nodup_singleton c) ?_
      intro a ha hb
      rw [List.mem_singleton] at hb
      exact hc.2 (hb ▸ ha)
    · rw [if_neg hc]
      exact h

theorem subset_addCols (tc cs sel : List String) : sel ⊆ addCols tc cs sel :=
  fun x hx => (mem_addCols tc cs sel x).mpr (Or.inl hx)

theorem getSel_eq (s : Selections) (f sh : String) :
    getSel s f sh = (List.lookup sh ((List.lookup f s).getD [])).getD [] := by
  unfold getSel lookupSheet
  cases List.lookup f s with
  | none => rfl
  | some m => rfl

theorem lookupSheet_updSel_self (s : Selections) (f sh : String)
    (tc cs : List String) :
    lookupSheet (updSel s f sh tc cs) f sh =
      some (addCols tc cs (getSel s f sh)) := by
  unfold lookupSheet updSel
  rw [lookup_updAssoc_self]
  show List.lookup sh (updAssoc ((List.lookup f s).getD []) sh []
    (fun sel => addCols tc cs sel)) = _
  rw [lookup_updAssoc_self, getSel_eq]

theorem lookupSheet_updSel_ne (s : Selections) (f' sh' : String)
    (tc cs : List String) (f sh : String) (h : ¬ (f' = f ∧ sh' = sh)) :
    lookupSheet (updSel s f' sh' tc cs) f sh = lookupSheet s f sh := by
  unfold lookupSheet updSel
  by_cases hf : f' = f
  · subst hf
    have hsh : sh ≠ sh' := fun he => h ⟨rfl, he.symm⟩
    rw [lookup_updAssoc_self]
    show List.lookup sh (updAssoc ((List.lookup f' s).getD []) sh' []
      (fun sel => addCols tc cs sel)) = _
    rw [lookup_updAssoc_ne _ _ _ _ _ hsh]
    cases List.lookup f' s with
    | none => rfl
    | some m => rfl
  · rw [lookup_updAssoc_ne _ _ _ _ _ (fun he => hf he.symm)]

theorem applySheets_nil (pat : String) (cols : List String) (fn : String)
    (s : Selections) : applySheets pat cols fn [] s = s := rfl

theorem applySheets_cons (pat : String) (cols : List String) (fn : String)
    (p : String × NamedTable) (rest : List (String × NamedTable)) (s : Selections) :
    applySheets pat cols fn (p :: rest) s =
      applySheets pat cols fn rest
        (if pattern_matches_sheet pat fn p.1 then
          updSel s fn p.1 p.2.colNames cols
         else s) := rfl

theorem applyPattern_nil (pat : String) (cols : List String) (s : Selections) :
    applyPattern pat cols [] s = s := rfl

theorem applyPattern_cons (pat : String) (cols : List String)
    (q : String × List (String × NamedTable)) (rest : FileData) (s : Selections) :
    applyPattern pat cols (q :: rest) s =
      applyPattern pat cols rest (applySheets pat cols q.1 q.2 s) := rfl

theorem lookupSheet_applySheets_ne_file (pat : String) (cols : List String)
    (fn : String) (shts : List (String × NamedTable)) (s : Selections)
    (f sh : String) (h : fn ≠ f) :
    lookupSheet (applySheets pat cols fn shts s) f sh = lookupSheet s f sh := by
  induction shts generalizing s with
  | nil => rfl
  | cons p rest ih =>
    rw [applySheets_cons, ih]
    by_cases hm : pattern_matches_sheet pat fn p.1 = true
    · rw [if_pos hm, lookupSheet_updSel_ne _ _ _ _ _ _ _ (fun hc => h hc.1)]
    · rw [if_neg hm]

theorem lookupSheet_applySheets_not_mem (pat : String) (cols : List String)
    (f : String) (shts : List (String × NamedTable)) (s : Selections)
    (sh : String) (h : sh ∉ shts.map Prod.fst) :
    lookupSheet (applySheets pat cols f shts s) f sh = lookupSheet s f sh := by
  induction shts generalizing s with
  | nil => rfl
  | cons p rest ih =>
    simp only [List.map_cons, List.mem_cons, not_or] at h
    rw [applySheets_cons, ih _ h.2]
    by_cases hm : pattern_matches_sheet pat f p.1 = true
    · rw [if_pos hm, lookupSheet_updSel_ne _ _ _ _ _ _ _ (fun hc => h.1 hc.2.symm)]
    · rw [if_neg hm]

theorem lookupSheet_applySheets_hit (pat : String) (cols : List String)
    (f : String) (shts : List (String × NamedTable)) (s : Selections)
    (sh : String) (tbl : NamedTable)
    (hnd : (shts.map Prod.fst).Nodup)
    (hmem : (sh, tbl) ∈ shts) :
    lookupSheet (applySheets pat cols f shts s) f sh =
      if pattern_matches_sheet pat f sh then
        some (addCols tbl.colNames cols (getSel s f sh))
      else lookupSheet s f sh := by
  obtain ⟨l1, l2, rfl⟩ := List.append_of_mem hmem
  have hmap : (l1 ++ (sh, tbl) :: l2).map Prod.fst =
      l1.map Prod.fst ++ sh :: l2.map Prod.fst := by simp
  rw [hmap] at hnd
  have hd := List.disjoint_of_nodup_append hnd
  have h1 : sh ∉ l1.map Prod.fst := fun hm => hd hm (List.mem_cons_self _ _)
  have h2 : sh ∉ l2.map Prod.fst := by
    have h3 := hnd.of_append_right
    rw [List.nodup_cons] at h3
    exact h3.1
  have happ : applySheets pat cols f (l1 ++ (sh, tbl) :: l2) s =
      applySheets pat cols f l2
        (if pattern_matches_sheet pat f sh then
          updSel (applySheets pat cols f l1 s) f sh tbl.colNames cols
         else applySheets pat cols f l1 s) := by
    unfold applySheets
    rw [List.foldl_append]
    rfl
  rw [happ]
  by_cases hm : pattern_matches_sheet pat f sh = true
  · rw [if_pos hm, if_pos hm,
      lookupSheet_applySheets_not_mem pat cols f l2 _ sh h2,
      lookupSheet_updSel_self]
    have hg : getSel (applySheets pat cols f l1 s) f sh = getSel s f sh := by
      unfold getSel
      rw [lookupSheet_applySheets_not_mem pat cols f l1 s sh h1]
    rw [hg]
  · rw [if_neg hm, if_neg hm,
      lookupSheet_applySheets_not_mem pat cols f l2 _ sh h2,
      lookupSheet_applySheets_not_mem pat cols f l1 s sh h1]

theorem lookupSheet_applyPattern_not_mem (pat : String) (cols : List String)
    (fd : FileData) (s : Selections) (f sh : String)
    (h : f ∉ fd.map Prod.fst) :
    lookupSheet (applyPattern pat cols fd s) f sh = lookupSheet s f sh := by
  induction fd generalizing s with
  | nil => rfl
  | cons q rest ih =>
    simp only [List.map_cons, List.mem_cons, not_or] at h
    rw [applyPattern_cons, ih _ h.2,
      lookupSheet_applySheets_ne_file _ _ _ _ _ _ _ (fun he => h.1 he.symm)]

theorem lookupSheet_applyPattern (pat : String) (cols : List String)
    (fd : FileData) (s : Selections) (f sh : String)
    (shts : List (String × NamedTable)) (tbl : NamedTable)
    (hfd : (fd.map Prod.fst).Nodup)
    (hmemf : (f, shts) ∈ fd)
    (hshts : (shts.map Prod.fst).Nodup)
    (hmem : (sh, tbl) ∈ shts) :
    lookupSheet (applyPattern pat cols fd s) f sh =
      if pattern_matches_sheet pat f sh then
        some (addCols tbl.colNames cols (getSel s f sh))
      else lookupSheet s f sh := by
  obtain ⟨F1, F2, rfl⟩ := List.append_of_mem hmemf
  have hmap : (F1 ++ (f, shts) :: F2).map Prod.fst =
      F1.map Prod.fst ++ f :: F2.map Prod.fst := by simp
  rw [hmap] at hfd
  have hd := List.disjoint_of_nodup_append hfd
  have h1 : f ∉ F1.map Prod.fst := fun hm => hd hm (List.mem_cons_self _ _)
  have h2 : f ∉ F2.map Prod.fst := by
    have h3 := hfd.of_append_right
    rw [List.nodup_cons] at h3
    exact h3.1
  have happ : applyPattern pat cols (F1 ++ (f, shts) :: F2) s =
      applyPattern pat cols F2
        (applySheets pat cols f shts (applyPattern pat cols F1 s)) := by
    unfold applyPattern
    rw [List.foldl_append]
    rfl
  rw [happ, lookupSheet_applyPattern_not_mem pat cols F2 _ f sh h2,
    lookupSheet_applySheets_hit pat cols f shts _ sh tbl hshts hmem]
  have hg : getSel (applyPattern pat cols F1 s) f sh = getSel s f sh := by
    unfold getSel
    rw [lookupSheet_applyPattern_not_mem pat cols F1 s f sh h1]
  rw [hg, lookupSheet_applyPattern_not_mem pat cols F1 s f sh h1]

theorem getSel_applyPattern (pat : String) (cols : List String)
    (fd : FileData) (s : Selections) (f sh : String)
    (shts : List (String × NamedTable)) (tbl : NamedTable)
    (hfd : (fd.map Prod.fst).Nodup)
    (hmemf : (f, shts) ∈ fd)
    (hshts : (shts.map Prod.fst).Nodup)
    (hmem : (sh, tbl) ∈ shts) :
    getSel (applyPattern pat cols fd s) f sh =
      if pattern_matches_sheet pat f sh then
        addCols tbl.colNames cols (getSel s f sh)
      else getSel s f sh := by
  unfold getSel
  rw [lookupSheet_applyPattern pat cols fd s f sh shts tbl hfd hmemf hshts hmem]
  by_cases hm : pattern_matches_sheet pat f sh = true
  · rw [if_pos hm, if_pos hm]
    rfl
  · rw [if_neg hm, if_neg hm]

theorem isSome_applyPattern (pat : String) (cols : List String)
    (fd : FileData) (s : Selections) (f sh : String)
    (shts : List (String × NamedTable)) (tbl : NamedTable)
    (hfd : (fd.map Prod.fst).Nodup)
    (hmemf : (f, shts) ∈ fd)
    (hshts : (shts.map Prod.fst).Nodup)
    (hmem : (sh, tbl) ∈ shts) :
    (lookupSheet (applyPattern pat cols fd s) f sh).isSome =
      ((lookupSheet s f sh).isSome || pattern_matches_sheet pat f sh) := by
  rw [lookupSheet_applyPattern pat cols fd s f sh shts tbl hfd hmemf hshts hmem]
  by_cases hm : pattern_matches_sheet pat f sh = true
  · rw [if_pos hm, hm]
    simp
  · have hm' : pattern_matches_sheet pat f sh = false := Bool.eq_false_iff.mpr hm
    rw [if_neg hm, hm']
    simp

theorem mem_getSel_foldPatterns (fd : FileData) (f sh : String)
    (shts : List (String × NamedTable)) (tbl : NamedTable)
    (hfd : (fd.map Prod.fst).Nodup)
    (hmemf : (f, shts) ∈ fd)
    (hshts : (shts.map Prod.fst).Nodup)
    (hmem : (sh, tbl) ∈ shts)
    (ps : List (String × List String)) (s : Selections) (x : String) :
    x ∈ getSel (ps.foldl (fun s p => applyPattern p.1 p.2 fd s) s) f sh ↔
      x ∈ getSel s f sh ∨
        ∃ p ∈ ps, pattern_matches_sheet p.1 f sh = true ∧ x ∈ p.2 ∧
          x ∈ tbl.colNames := by
  induction ps generalizing s with
  | nil => simp
  | cons q ps ih =>
    rw [List.foldl_cons, ih]
    rw [getSel_applyPattern q.1 q.2 fd s f sh shts tbl hfd hmemf hshts hmem]
    by_cases hm : pattern_matches_sheet q.1 f sh = true
    · rw [if_pos hm, mem_addCols]
      constructor
      · rintro ((hx | ⟨hx1, hx2⟩) | ⟨p, hp, hm2, hx1, hx2⟩)
        · exact Or.inl hx
        · exact Or.inr ⟨q, List.mem_cons_self _ _, hm, hx1, hx2⟩
        · exact Or.inr ⟨p, List.mem_cons_of_mem _ hp, hm2, hx1, hx2⟩
      · rintro (hx | ⟨p, hp, hm2, hx1, hx2⟩)
        · exact Or.inl (Or.inl hx)
        · rcases List.mem_cons.mp hp with hp | hp
          · subst hp
            exact Or.inl (Or.inr ⟨hx1, hx2⟩)
          · exact Or.inr ⟨p, hp, hm2, hx1, hx2⟩
    · rw [if_neg hm]
      constructor
      · rintro (hx | ⟨p, hp, hm2, hx1, hx2⟩)
        · exact Or.inl hx
        · exact Or.inr ⟨p, List.mem_cons_of_mem _ hp, hm2, hx1, hx2⟩
      · rintro (hx | ⟨p, hp, hm2, hx1, hx2⟩)
        · exact Or.inl hx
        · rcases List.mem_cons.mp hp with hp | hp
          · subst hp
            exact absurd hm2 hm
          · exact Or.inr ⟨p, hp, hm2, hx1, hx2⟩

theorem nodup_getSel_foldPatterns (fd : FileData) (f sh : String)
    (shts : List (String × NamedTable)) (tbl : NamedTable)
    (hfd : (fd.map Prod.fst).Nodup)
    (hmemf : (f, shts) ∈ fd)
    (hshts : (shts.map Prod.fst).Nodup)
    (hmem : (sh, tbl) ∈ shts)
    (ps : List (String × List String)) (s : Selections)
    (h : (getSel s f sh).Nodup) :
    (getSel (ps.foldl (fun s p => applyPattern p.1 p.2 fd s) s) f sh).Nodup := by
  induction ps generalizing s with
  | nil => exact h
  | cons q ps ih =>
    rw [List.foldl_cons]
    apply ih
    rw [getSel_applyPattern q.1 q.2 fd s f sh shts tbl hfd hmemf hshts hmem]
    by_cases hm : pattern_matches_sheet q.1 f sh = true
    · rw [if_pos hm]
      exact nodup_addCols _ _ _ h
    · rw [if_neg hm]
      exact h

theorem subset_getSel_foldPatterns (fd : FileData) (f sh : String)
    (shts : List (String × NamedTable)) (tbl : NamedTable)
    (hfd : (fd.map Prod.fst).Nodup)
    (hmemf : (f, shts) ∈ fd)
    (hshts : (shts.map Prod.fst).Nodup)
    (hmem : (sh, tbl) ∈ shts)
    (ps : List (String × List String)) (s : Selections) :
    getSel s f sh ⊆ getSel (ps.foldl (fun s p => applyPattern p.1 p.2 fd s) s) f sh := by
  induction ps generalizing s with
  | nil => exact fun x hx => hx
  | cons q ps ih =>
    rw [List.foldl_cons]
    intro x hx
    refine ih _ ?_
    rw [getSel_applyPattern q.1 q.2 fd s f sh shts tbl hfd hmemf hshts hmem]
    by_cases hm : pattern_matches_sheet q.1 f sh = true
    · rw [if_pos hm]
      exact subset_addCols _ _ _ hx
    · rw [if_neg hm]
      exact hx

theorem isSome_foldPatterns (fd : FileData) (f sh : String)
    (shts : List (String × NamedTable)) (tbl : NamedTable)
    (hfd : (fd.map Prod.fst).Nodup)
    (hmemf : (f, shts) ∈ fd)
    (hshts : (shts.map Prod.fst).Nodup)
    (hmem : (sh, tbl) ∈ shts)
    (ps : List (String × List String)) (s : Selections) :
    (lookupSheet (ps.foldl (fun s p => applyPattern p.1 p.2 fd s) s) f sh).isSome =
      ((lookupSheet s f sh).isSome ||
        ps.any (fun p => pattern_matches_sheet p.1 f sh)) := by
  induction ps generalizing s with
  | nil => simp
  | cons q ps ih =>
    rw [List.foldl_cons, ih,
      isSome_applyPattern q.1 q.2 fd s f sh shts tbl hfd hmemf hshts hmem]
    simp [Bool.or_assoc]

/-- C3.  Whenever a pattern `(pat, cols)` of the profile matches `(f, sh)`
whose table is `tbl`, a name `c` listed by that pattern appears in the
selection entry for `(f, sh)` iff it is one of `tbl`'s column names (absent
names are silently dropped); the entry never holds a name twice, even when
several matching patterns list it; and the patterns applied later only add to
the columns contributed by an earlier prefix of the profile, never replace
them. -/
theorem match_to_new_files_selected_columns
    (patterns : List (String × List String)) (fd : FileData)
    (f sh : String) (shts : List (String × NamedTable)) (tbl : NamedTable)
    (pat : String) (cols : List String) (c : String)
    (pre suf : List (String × List String))
    (hfd : (fd.map Prod.fst).Nodup)
    (hmemf : (f, shts) ∈ fd)
    (hshts : (shts.map Prod.fst).Nodup)
    (hmem : (sh, tbl) ∈ shts)
    (hpat : (pat, cols) ∈ patterns)
    (hmatch : pattern_matches_sheet pat f sh = true)
    (hc : c ∈ cols)
    (hsplit : patterns = pre ++ suf) :
    (c ∈ getSel (match_to_new_files patterns fd) f sh ↔ c ∈ tbl.colNames) ∧
    (getSel (match_to_new_files patterns fd) f sh).Nodup ∧
    getSel (match_to_new_files pre fd) f sh ⊆
      getSel (match_to_new_files patterns fd) f sh := by
  have hbase : getSel ([] : Selections) f sh = [] := rfl
  refine ⟨?_, ?_, ?_⟩
  · unfold match_to_new_files
    rw [mem_getSel_foldPatterns fd f sh shts tbl hfd hmemf hshts hmem patterns [] c,
      hbase]
    constructor
    · rintro (hx | ⟨p, hp, hm2, hx1, hx2⟩)
      · simp at hx
      · exact hx2
    · intro hx
      exact Or.inr ⟨(pat, cols), hpat, hmatch, hc, hx⟩
  · unfold match_to_new_files
    apply nodup_getSel_foldPatterns fd f sh shts tbl hfd hmemf hshts hmem patterns []
    rw [hbase]
    exact List.nodup_nil
  · subst hsplit
    unfold match_to_new_files
    rw [List.foldl_append]
    exact subset_getSel_foldPatterns fd f sh shts tbl hfd hmemf hshts hmem suf _

/-- Example file data for C3's witness: one file `A` with one sheet `S1`
whose table has columns `X` and `Z`. -/
def fdC3 : FileData := [("A", [("S1", NamedTable.mk ["X", "Z"] [])])]

/-- Example profile for C3's witness: two bare patterns for `S1`; `Y` and `W`
are absent from the table and must be dropped. -/
def patsC3 : List (String × List String) := [("S1", ["X", "Y"]), ("S1", ["Y", "W"])]

theorem match_to_new_files_selected_columns_witness :
    ((fdC3.map Prod.fst).Nodup ∧ ("A", [("S1", NamedTable.mk ["X", "Z"] [])]) ∈ fdC3 ∧
      (([("S1", NamedTable.mk ["X", "Z"] [])].map Prod.fst).Nodup) ∧
      ("S1", NamedTable.mk ["X", "Z"] []) ∈ [("S1", NamedTable.mk ["X", "Z"] [])] ∧
      ("S1", ["X", "Y"]) ∈ patsC3 ∧
      pattern_matches_sheet "S1" "A" "S1" = true ∧
      "X" ∈ ["X", "Y"] ∧
      patsC3 = [("S1", ["X", "Y"])] ++ [("S1", ["Y", "W"])]) ∧
    ((("X" ∈ getSel (match_to_new_files patsC3 fdC3) "A" "S1") ↔
        "X" ∈ (NamedTable.mk ["X", "Z"] []).colNames) ∧
      (getSel (match_to_new_files patsC3 fdC3) "A" "S1").Nodup ∧
      getSel (match_to_new_files [("S1", ["X", "Y"])] fdC3) "A" "S1" ⊆
        getSel (match_to_new_files patsC3 fdC3) "A" "S1") :=
  ⟨⟨by decide, by decide, by decide, by decide, by decide, by decide, by decide,
      by decide⟩,
    match_to_new_files_selected_columns patsC3 fdC3 "A" "S1"
      [("S1", NamedTable.mk ["X", "Z"] [])] (NamedTable.mk ["X", "Z"] [])
      "S1" ["X", "Y"] "X" [("S1", ["X", "Y"])] [("S1", ["Y", "W"])]
      (by decide) (by decide) (by decide) (by decide) (by decide) (by decide)
      (by decide) (by decide)⟩

/-- C10.  A `(file, sheet)` pair of the file data has an entry in the result
of `match_to_new_files` iff some pattern of the profile matches it; and when
it is matched but none of the matching patterns' column names occur in the
table's columns, the entry is present and equal to the empty list. -/
theorem match_to_new_files_matched_sheet_present
    (patterns : List (String × List String)) (fd : FileData)
    (f sh : String) (shts : List (String × NamedTable)) (tbl : NamedTable)
    (hfd : (fd.map Prod.fst).Nodup)
    (hmemf : (f, shts) ∈ fd)
    (hshts : (shts.map Prod.fst).Nodup)
    (hmem : (sh, tbl) ∈ shts) :
    ((∃ p ∈ patterns, pattern_matches_sheet p.1 f sh = true) ↔
      (lookupSheet (match_to_new_files patterns fd) f sh).isSome = true) ∧
    ((∃ p ∈ patterns, pattern_matches_sheet p.1 f sh = true) →
      (∀ p ∈ patterns, pattern_matches_sheet p.1 f sh = true →
        ∀ c ∈ p.2, ¬ c ∈ tbl.colNames) →
      lookupSheet (match_to_new_files patterns fd) f sh = some []) := by
  have hbase : getSel ([] : Selections) f sh = [] := rfl
  have hisome : (lookupSheet (match_to_new_files patterns fd) f sh).isSome =
      patterns.any (fun p => pattern_matches_sheet p.1 f sh) := by
    unfold match_to_new_files
    rw [isSome_foldPatterns fd f sh shts tbl hfd hmemf hshts hmem patterns []]
    rfl
  constructor
  · rw [hisome, List.any_eq_true]
  · intro hex hnone
    have hempty : getSel (match_to_new_files patterns fd) f sh = [] := by
      rw [List.eq_nil_iff_forall_not_mem]
      intro x
      unfold match_to_new_files
      rw [mem_getSel_foldPatterns fd f sh shts tbl hfd hmemf hshts hmem patterns [] x]
      rintro (hx | ⟨p, hp, hm2, hx1, hx2⟩)
      · rw [hbase] at hx
        simp at hx
      · exact hnone p hp hm2 x hx1 hx2
    have hsome : (lookupSheet (match_to_new_files patterns fd) f sh).isSome = true := by
      rw [hisome, List.any_eq_true]
      exact hex
    cases hls : lookupSheet (match_to_new_files patterns fd) f sh with
    | none =>
      rw [hls] at hsome
      simp at hsome
    | some v =>
      have hv : v = [] := by
        have h2 := hempty
        unfold getSel at h2
        rw [hls] at h2
        simpa using h2
      rw [hv]

/-- Example file data for C10's witness: the matching pattern's only column
`Q` is absent from the table, so the matched sheet gets an empty entry. -/
def fdC10 : FileData := [("B", [("S2", NamedTable.mk ["P"] [])])]

/-- Example profile for C10's witness. -/
def patsC10 : List (String × List String) := [("S2", ["Q"])]

theorem match_to_new_files_matched_sheet_present_witness :
    ((fdC10.map Prod.fst).Nodup ∧ ("B", [("S2", NamedTable.mk ["P"] [])]) ∈ fdC10 ∧
      (([("S2", NamedTable.mk ["P"] [])].map Prod.fst).Nodup) ∧
      ("S2", NamedTable.mk ["P"] []) ∈ [("S2", NamedTable.mk ["P"] [])]) ∧
    (((∃ p ∈ patsC10, pattern_matches_sheet p.1 "B" "S2" = true) ↔
        (lookupSheet (match_to_new_files patsC10 fdC10) "B" "S2").isSome = true) ∧
      ((∃ p ∈ patsC10, pattern_matches_sheet p.1 "B" "S2" = true) →
        (∀ p ∈ patsC10, pattern_matches_sheet p.1 "B" "S2" = true →
          ∀ c ∈ p.2, ¬ c ∈ (NamedTable.mk ["P"] []).colNames) →
        lookupSheet (match_to_new_files patsC10 fdC10) "B" "S2" = some [])) :=
  ⟨⟨by decide, by decide, by decide, by decide⟩,
    match_to_new_files_matched_sheet_present patsC10 fdC10 "B" "S2"
      [("S2", NamedTable.mk ["P"] [])] (NamedTable.mk ["P"] [])
      (by decide) (by decide) (by decide) (by decide)⟩
